import Mathlib

/-!
Verification development for the automated-license-check repository.

The Python sources (src/license_checker.py and src/license_checkerv2.py) are
shallowly embedded below.  Strings are Lean strings (lists of characters with
ASCII semantics for case mapping, word characters and whitespace, matching the
ASCII inputs the tool processes); Python sets of strings are embedded as
duplicate-free lists built by insertion order; Python dicts as association
lists in insertion order; a Python source file that may fail to parse is
embedded as an `Option` (with `none` for a file on which ast.parse raises),
and the import scan returns `Except Unit` so that an uncaught exception is an
`Except.error`.  The fuzzy matcher difflib.get_close_matches is embedded via a
faithful model of SequenceMatcher: b2j position lists (with the autojunk rule
for sequences of length at least 200), the find-longest-match dynamic program
with its junk/non-junk extension loops, the recursive matching-blocks
decomposition, and the ratio 2*M/T compared against the 0.6 cutoff by exact
rational arithmetic (10*M >= 3*T), which agrees with the floating comparison
for the string lengths involved.  Bounded while-loops and the recursive block
decomposition carry an explicit fuel argument that is always large enough for
the loop to run to completion.
-/

namespace LicenseCheck

/-- ASCII uppercase letter test, on code points 65..90. -/
def isUpperAZ (c : Char) : Bool := 65 ≤ c.toNat && c.toNat ≤ 90

/-- Model of Python str.lower restricted to ASCII letters. -/
def lowerChar (c : Char) : Char :=
  if isUpperAZ c then Char.ofNat (c.toNat + 32) else c

/-- Model of the regex word character class on ASCII: letters, digits, underscore. -/
def wordChar (c : Char) : Bool := c.isAlpha || c.isDigit || c = '_'

/-- Model of the regex whitespace class on ASCII, as used by str.strip as well. -/
def spaceChar (c : Char) : Bool :=
  c = ' ' || c = '\t' || c = '\n' || c = '\r' || c = '\x0b' || c = '\x0c'

/-- If `w` is an initial segment of `s`, return the remainder of `s` after it. -/
def dropPre : List Char → List Char → Option (List Char)
  | [], s => some s
  | _ :: _, [] => none
  | w :: ws, c :: cs => if c = w then dropPre ws cs else none

/-- A word boundary holds after a match if the next character is absent or not a word character. -/
def boundaryOk : List Char → Bool
  | [] => true
  | c :: _ => !wordChar c

/-- Scanner for re.sub of a whole word pattern with the empty replacement:
removes every non-overlapping occurrence of `w` that is delimited by word
boundaries, scanning left to right.  `prevW` records whether the character
before the current position is a word character.  The fuel is the length of
the scanned list, enough since every step consumes at least one character. -/
def removeWordF (w : List Char) : Nat → Bool → List Char → List Char
  | 0, _, s => s
  | _ + 1, _, [] => []
  | fuel + 1, prevW, c :: cs =>
    if prevW then c :: removeWordF w fuel (wordChar c) cs
    else
      match dropPre w (c :: cs) with
      | some rest =>
        if boundaryOk rest then removeWordF w fuel true rest
        else c :: removeWordF w fuel (wordChar c) cs
      | none => c :: removeWordF w fuel (wordChar c) cs

/-- Model of re.sub of a whole-word pattern by the empty string. -/
def removeWord (w : String) (s : List Char) : List Char :=
  removeWordF w.data s.length false s

/-- Model of re.sub replacing every maximal run of whitespace by one space.
The flag records whether the previous character belonged to a run. -/
def collapseA : Bool → List Char → List Char
  | _, [] => []
  | prevSp, c :: cs =>
    if spaceChar c then
      if prevSp then collapseA true cs else ' ' :: collapseA true cs
    else c :: collapseA false cs

/-- The characters of the literal part "exception" of the step 4 pattern. -/
def excStr : List Char := "exception".data

/-- Greedy match of the regex fragment dot-star followed by "exception" against
a list: the dot does not match a newline and the star is greedy, so the
latest feasible start of "exception" is preferred.  Returns the remainder
after the match, or `none` if there is no match. -/
def greedyExc : List Char → Option (List Char)
  | [] => none
  | c :: cs =>
    if c = '\n' then dropPre excStr (c :: cs)
    else
      match greedyExc cs with
      | some r => some r
      | none => dropPre excStr (c :: cs)

/-- The characters of the literal part "with" of the step 4 pattern. -/
def withStr : List Char := "with".data

/-- Scanner for re.sub of the step 4 pattern by the empty string: at each
position, if the literal "with" starts here and the greedy tail matches, the
whole match is dropped and scanning resumes after it; otherwise the character
is kept.  The fuel is the length of the list. -/
def wxScanF : Nat → List Char → List Char
  | 0, s => s
  | _ + 1, [] => []
  | fuel + 1, c :: cs =>
    match dropPre withStr (c :: cs) with
    | some rest =>
      match greedyExc rest with
      | some r => wxScanF fuel r
      | none => c :: wxScanF fuel cs
    | none => c :: wxScanF fuel cs

/-- Model of str.strip with no argument: remove leading and trailing whitespace. -/
def stripChars (s : List Char) : List Char :=
  ((s.dropWhile spaceChar).reverse.dropWhile spaceChar).reverse

/-- Everything before the first occurrence of the single character `t`,
modelling the first component of str.split on that character. -/
def takeUntilChar (t : Char) : List Char → List Char
  | [] => []
  | c :: cs => if c = t then [] else c :: takeUntilChar t cs

/-- Everything before the first occurrence of the pattern `pat`, modelling the
first component of str.split on a multi-character separator. -/
def beforeSubList (pat : List Char) : List Char → List Char
  | [] => []
  | c :: cs =>
    if (dropPre pat (c :: cs)).isSome then [] else c :: beforeSubList pat cs

/-- Substring test, modelling the Python expression pat in s. -/
def hasSubstr (pat : List Char) : List Char → Bool
  | [] => (dropPre pat ([] : List Char)).isSome
  | c :: cs => (dropPre pat (c :: cs)).isSome || hasSubstr pat cs

/-- Adding one element to a Python set embedded as a duplicate-free list in
insertion order. -/
def insertSet (l : List String) (x : String) : List String :=
  if x ∈ l then l else l ++ [x]

/-- Test for str.startswith applied to the hash character. -/
def startsHash : List Char → Bool
  | '#' :: _ => true
  | _ => false

/-- Lookup in an association list embedding a Python dict, first key wins. -/
def lookupKL : List (String × String) → String → Option String
  | [], _ => none
  | (k, v) :: rest, s => if s = k then some v else lookupKL rest s

/-- The known_licenses dict of normalize_license_name, in source order. -/
def known_licenses : List (String × String) := [
  ("mit", "MIT"),
  ("apache 2 0", "Apache-2.0"),
  ("apache license 2 0", "Apache-2.0"),
  ("apache license", "Apache-2.0"),
  ("bsd 3 clause", "BSD-3-Clause"),
  ("bsd 2 clause", "BSD-2-Clause"),
  ("gnu general public 2 0", "GPL-2.0"),
  ("gnu general public 3 0", "GPL-3.0"),
  ("gpl 2 0", "GPL-2.0"),
  ("gpl 3 0", "GPL-3.0"),
  ("gnu lesser general public 2 1", "LGPL-2.1"),
  ("gnu lesser general public 3 0", "LGPL-3.0"),
  ("lgpl 2 1", "LGPL-2.1"),
  ("lgpl 3 0", "LGPL-3.0"),
  ("agpl 3 0", "AGPL-3.0"),
  ("gnu affero general public 3 0", "AGPL-3.0"),
  ("mozilla public 2 0", "MPL-2.0"),
  ("mpl 2 0", "MPL-2.0"),
  ("eclipse public 2 0", "EPL-2.0"),
  ("epl 2 0", "EPL-2.0"),
  ("unlicense", "Unlicense"),
  ("cc0", "CC0-1.0"),
  ("creative commons zero", "CC0-1.0"),
  ("zlib", "Zlib"),
  ("artistic 2 0", "Artistic-2.0"),
  ("bsd 0 clause", "0BSD"),
  ("wtfpl", "WTFPL")]

/-- The value sequence of known_licenses, kept in order and with duplicates,
as produced by dict.values(). -/
def knownValues : List String := known_licenses.map (fun kv => kv.2)

/-- Default character for out-of-range reads in the matcher model; every read
performed by the algorithm is in range. -/
def ch0 : Char := Char.ofNat 0

/-- The autojunk rule of SequenceMatcher: when the second sequence has length
at least 200, characters occurring more than length/100 + 1 times are junk. -/
def junkOf (b : List Char) (c : Char) : Bool :=
  decide (200 ≤ b.length) && decide (b.length / 100 + 1 < b.count c)

/-- The b2j table of SequenceMatcher: ascending positions of a character in
the second sequence, with junk characters removed. -/
def posList (b : List Char) (junk : Char → Bool) (c : Char) : List Nat :=
  if junk c then []
  else (List.range b.length).filter (fun j => b.getD j ch0 == c)

/-- Lookup in the j2len association table of find_longest_match, defaulting to 0. -/
def assocGet : List (Nat × Nat) → Nat → Nat
  | [], _ => 0
  | (j, k) :: rest, j2 => if j2 = j then k else assocGet rest j2

/-- The best-block update of find_longest_match: a new block of size `k`
ending at positions `i`, `j` replaces the recorded best only when strictly
longer. -/
def bestUpd (i j k : Nat) (best : Nat × Nat × Nat) : Nat × Nat × Nat :=
  if best.2.2 < k then (i + 1 - k, j + 1 - k, k) else best

/-- The dynamic program of find_longest_match over the windows
[alo, ahi) of `a` and [blo, bhi) of `b`: for each position of `a` the table
maps positions of `b` to the length of the longest match ending there, and
the first strictly longest block found is recorded. -/
def flmCore (a b : List Char) (junk : Char → Bool) (alo ahi blo bhi : Nat) :
    Nat × Nat × Nat :=
  ((List.range' alo (ahi - alo)).foldl
    (fun (st : List (Nat × Nat) × (Nat × Nat × Nat)) (i : Nat) =>
      let js := (posList b junk (a.getD i ch0)).filter
        (fun j => decide (blo ≤ j) && decide (j < bhi))
      js.foldl
        (fun (st2 : List (Nat × Nat) × (Nat × Nat × Nat)) (j : Nat) =>
          let k := (if j = 0 then 0 else assocGet st.1 (j - 1)) + 1
          ((j, k) :: st2.1, bestUpd i j k st2.2))
        ([], st.2))
    ([], (alo, blo, 0))).2

/-- One of the extension while-loops of find_longest_match, growing the block
downward over characters whose junk status equals `jv`.  The fuel bounds the
number of iterations and is chosen larger than the block can travel. -/
def extendLow (a b : List Char) (junk : Char → Bool) (jv : Bool)
    (alo blo : Nat) : Nat → Nat × Nat × Nat → Nat × Nat × Nat
  | 0, st => st
  | fuel + 1, (bi, bj, bs) =>
    if alo < bi ∧ blo < bj ∧ junk (b.getD (bj - 1) ch0) = jv ∧
        a.getD (bi - 1) ch0 = b.getD (bj - 1) ch0
    then extendLow a b junk jv alo blo fuel (bi - 1, bj - 1, bs + 1)
    else (bi, bj, bs)

/-- The matching upward extension while-loop of find_longest_match. -/
def extendHigh (a b : List Char) (junk : Char → Bool) (jv : Bool)
    (ahi bhi : Nat) : Nat → Nat × Nat × Nat → Nat × Nat × Nat
  | 0, st => st
  | fuel + 1, (bi, bj, bs) =>
    if bi + bs < ahi ∧ bj + bs < bhi ∧ junk (b.getD (bj + bs) ch0) = jv ∧
        a.getD (bi + bs) ch0 = b.getD (bj + bs) ch0
    then extendHigh a b junk jv ahi bhi fuel (bi, bj, bs + 1)
    else (bi, bj, bs)

/-- The bjunk set of SequenceMatcher comes from the isjunk parameter, which
get_close_matches leaves at None, so it is empty: no character is bjunk. -/
def bjunkNone : Char → Bool := fun _ => false

/-- find_longest_match: the dynamic program (over the popularity-purged b2j
table) followed by the non-junk and then junk extension loops on both sides,
in source order.  The extension loops test membership in bjunk, which is
empty here since isjunk is None; the autojunk popular set only purges b2j. -/
def flm (a b : List Char) (junk : Char → Bool) (alo ahi blo bhi : Nat) :
    Nat × Nat × Nat :=
  let fuel := a.length + b.length + 1
  let b0 := flmCore a b junk alo ahi blo bhi
  let b1 := extendLow a b bjunkNone false alo blo fuel b0
  let b2 := extendHigh a b bjunkNone false ahi bhi fuel b1
  let b3 := extendLow a b bjunkNone true alo blo fuel b2
  let b4 := extendHigh a b bjunkNone true ahi bhi fuel b3
  b4

/-- Total size of all matching blocks: the recursive decomposition of
get_matching_blocks, summing the block sizes.  The fuel bounds the recursion
depth, which never exceeds the sum of the window widths. -/
def mblocksF (a b : List Char) (junk : Char → Bool) :
    Nat → Nat → Nat → Nat → Nat → Nat
  | 0, _, _, _, _ => 0
  | fuel + 1, alo, ahi, blo, bhi =>
    let r := flm a b junk alo ahi blo bhi
    if r.2.2 = 0 then 0
    else r.2.2 + mblocksF a b junk fuel alo r.1 blo r.2.1 +
      mblocksF a b junk fuel (r.1 + r.2.2) ahi (r.2.1 + r.2.2) bhi

/-- The number M of matching characters between a candidate `x` (first
sequence) and the queried word `w` (second sequence), as used by ratio(). -/
def matchTotal (x w : String) : Nat :=
  mblocksF x.data w.data (junkOf w.data) (x.data.length + w.data.length + 1)
    0 x.data.length 0 w.data.length

/-- The cutoff test of get_close_matches: ratio = 2*M/T at least 0.6,
expressed exactly as 10*M at least 3*T. -/
def ratioGE (x w : String) : Bool :=
  decide (3 * (x.data.length + w.data.length) ≤ 10 * matchTotal x w)

/-- Lexicographic comparison of strings by code point, as Python compares the
second components of the (ratio, candidate) pairs. -/
def strLtB : List Char → List Char → Bool
  | [], [] => false
  | [], _ :: _ => true
  | _ :: _, [] => false
  | c :: cs, d :: ds =>
    if c.toNat < d.toNat then true
    else if d.toNat < c.toNat then false
    else strLtB cs ds

/-- get_close_matches with n = 1 and the default cutoff 0.6 over the catalog
values: keep the candidates whose ratio reaches the cutoff and select the
maximum of the (ratio, candidate) pairs, earliest first on full ties. -/
def closeMatch (w : String) : Option String :=
  (knownValues.filter (fun x => ratioGE x w)).foldl
    (fun best x =>
      match best with
      | none => some x
      | some y =>
        if matchTotal y w * (x.data.length + w.data.length) <
            matchTotal x w * (y.data.length + w.data.length)
          ∨ (matchTotal x w * (y.data.length + w.data.length) =
              matchTotal y w * (x.data.length + w.data.length)
            ∧ strLtB y.data x.data = true)
        then some x else some y)
    none

/-- Steps 1 to 4 of normalize_license_name: lowercase; remove the standalone
words license, version, v and with; replace commas and slashes, then hyphens
and underscores, by spaces; collapse whitespace runs; remove matches of the
step 4 pattern; strip. -/
def preNormalize (s : String) : List Char :=
  let n1 := s.data.map lowerChar
  let n2 := removeWord "license" n1
  let n3 := removeWord "version" n2
  let n4 := removeWord "v" n3
  let n5 := removeWord "with" n4
  let n6 := n5.map (fun c => if c = ',' || c = '/' then ' ' else c)
  let n7 := n6.map (fun c => if c = '-' || c = '_' then ' ' else c)
  let n8 := collapseA false n7
  stripChars (wxScanF n8.length n8)

/-- Step 7 of normalize_license_name: when the current value is not among
the dict values, attempt fuzzy matching and adopt the closest match if one
is found. -/
def fuzzyStep (n1 : String) : String :=
  if n1 ∈ knownValues then n1
  else
    match closeMatch n1 with
    | some m => m
    | none => n1

/-- normalize_license_name from src/license_checker.py: the normalization
steps, the exact dict lookup of step 6 (with the extra strip the source
applies there), and the fuzzy fallback of step 7 guarded by membership in the
dict values. -/
def normalize_license_name (s : String) : String :=
  fuzzyStep ((lookupKL known_licenses ⟨stripChars (preNormalize s)⟩).getD
    ⟨stripChars (preNormalize s)⟩)

/-- check_compliance from src/license_checker.py: normalize each allow-list
entry, then report, in iteration order, every package whose recorded license
string is not among the normalized allow-list entries. -/
def check_compliance (licenses : List (String × String))
    (allowed : List String) : List (String × String) :=
  let normalizedAllowed := allowed.map normalize_license_name
  licenses.filter (fun pl => decide (pl.2 ∉ normalizedAllowed))

/-- The package name the loop body of read_requirements_file computes from
one line: strip the line, split on "==" and keep the first component. -/
def reqLineName (line : String) : String :=
  ⟨beforeSubList "==".data (stripChars line.data)⟩

/-- The loop body of read_requirements_file: add the computed package name
when it is nonempty and does not start with the hash character. -/
def reqStep (acc : List String) (line : String) : List String :=
  if reqLineName line ≠ "" ∧ startsHash (reqLineName line).data = false then
    insertSet acc (reqLineName line)
  else acc

/-- read_requirements_file from src/license_checker.py, over the list of
lines of the file. -/
def read_requirements_file (lines : List String) : List String :=
  lines.foldl reqStep []

/-- parse_pyproject_toml from src/license_checker.py.  The two relevant
sections of the document are given as optional key lists ([tool.poetry]
sections absent or file missing give `none`).  The dependencies section skips
the key "python"; the dev-dependencies section adds every key. -/
def parse_pyproject_toml (deps devDeps : Option (List String)) : List String :=
  let d1 := match deps with
    | some l => l.foldl (fun acc p => if p ≠ "python" then insertSet acc p else acc) []
    | none => []
  match devDeps with
  | some l => l.foldl insertSet d1
  | none => d1

/-- parse_pyproject_toml from src/license_checkerv2.py: both sections are
filtered, every key different from "python" is added. -/
def parse_pyproject_toml_v2 (deps devDeps : Option (List String)) : List String :=
  let d1 := (deps.getD []).foldl
    (fun acc p => if p ≠ "python" then insertSet acc p else acc) []
  (devDeps.getD []).foldl
    (fun acc p => if p ≠ "python" then insertSet acc p else acc) d1

/-- Outcome of importlib.util.find_spec for a module name: the spec is None,
a spec with the given optional origin is found, or ModuleNotFoundError is
raised. -/
inductive FindSpecResult where
  | notFound
  | found (origin : Option String)
  | moduleNotFoundError
deriving DecidableEq

/-- is_builtin_module from src/license_checker.py: a None spec yields False,
a found spec is builtin when its origin is None or does not contain
"site-packages", and ModuleNotFoundError yields True. -/
def is_builtin_module : FindSpecResult → Bool
  | .notFound => false
  | .found none => true
  | .found (some origin) => !hasSubstr "site-packages".data origin.data
  | .moduleNotFoundError => true

/-- is_builtin_module from src/license_checkerv2.py: identical except that a
None spec yields True. -/
def is_builtin_module_v2 : FindSpecResult → Bool
  | .notFound => true
  | .found none => true
  | .found (some origin) => !hasSubstr "site-packages".data origin.data
  | .moduleNotFoundError => true

/-- The import-collecting loop of extract_imports_from_file, shared by both
sources: for every imported module name of a parsed file, take the first
dot-separated segment and add it unless the builtin test holds for it. -/
def extract_imports_from_file (isB : String → Bool) (mods : List String) :
    List String :=
  mods.foldl
    (fun acc m =>
      let m1 : String := ⟨takeUntilChar '.' m.data⟩
      if isB m1 then acc else insertSet acc m1)
    []

/-- The walk of scan_directory_for_imports: each Python file is either parsed
(its import list) or malformed (`none`).  extract_imports_from_file calls
ast.parse with no exception handler in either source, so a malformed file
raises out of the whole loop, modelled by `Except.error`. -/
def scanDirAux (isB : String → Bool) :
    List (Option (List String)) → List String → Except Unit (List String)
  | [], acc => Except.ok acc
  | f :: fs, acc =>
    match f with
    | none => Except.error ()
    | some mods =>
      scanDirAux isB fs ((extract_imports_from_file isB mods).foldl insertSet acc)

/-- scan_directory_for_imports over the files of the walked tree. -/
def scan_directory_for_imports (isB : String → Bool)
    (files : List (Option (List String))) : Except Unit (List String) :=
  scanDirAux isB files []

/-- Claim-side definition (from the wording of the specification, for
comparison with the code): ASCII lowercasing of a whole string. -/
def lowerStr (s : String) : String := ⟨s.data.map lowerChar⟩

/-- Whether the first character exists and is whitespace. -/
def headSpace : List Char → Bool
  | [] => false
  | c :: _ => spaceChar c

/-- Whether the last character exists and is whitespace. -/
def lastSpace (l : List Char) : Bool := headSpace l.reverse

/-- Whether two consecutive whitespace characters occur. -/
def hasDoubleSpace : List Char → Bool
  | c :: d :: rest => (spaceChar c && spaceChar d) || hasDoubleSpace (d :: rest)
  | _ => false

/-- A character allowed in a fully normalized string: not an ASCII uppercase
letter and none of comma, slash, hyphen, underscore. -/
def charOK (c : Char) : Bool :=
  !isUpperAZ c && !(c = ',' || c = '/' || c = '-' || c = '_')

/-- Claim-side definition (from the wording of claim C10): entirely lowercase,
none of the four punctuation characters, and no leading, trailing or
consecutive whitespace. -/
def claimNormalShape (s : String) : Bool :=
  s.data.all charOK && !headSpace s.data && !lastSpace s.data &&
    !hasDoubleSpace s.data

/-- The shape the code actually guarantees for a returned non-catalog string:
as claimNormalShape but without the ban on consecutive inner whitespace. -/
def relaxedShape (s : String) : Bool :=
  s.data.all charOK && !headSpace s.data && !lastSpace s.data

/-- Claim-side definition (from the wording of claim C9): the dependency name
of a requirements line is everything before the first "==", trimmed of
whitespace. -/
def specReqName (line : String) : String :=
  ⟨stripChars (beforeSubList "==".data line.data)⟩

/-- The catalog values on which normalize_license_name is the identity. -/
def idemValues : List String :=
  ["MIT", "Apache-2.0", "BSD-3-Clause", "BSD-2-Clause", "Unlicense", "Zlib",
   "Artistic-2.0", "WTFPL"]

/-- A module-search environment in which no module can be located: find_spec
returns None for every name. -/
def envNone : String → FindSpecResult := fun _ => FindSpecResult.notFound

/-! Helper lemmas. -/

theorem toNat_ofNat_small (n : Nat) (h : n < 1000) : (Char.ofNat n).toNat = n := by
  unfold Char.ofNat
  have hv : n.isValidChar := Or.inl (by omega)
  simp [hv]
  rfl

theorem isUpperAZ_lowerChar (c : Char) : isUpperAZ (lowerChar c) = false := by
  unfold lowerChar
  split
  · next h =>
    unfold isUpperAZ at h ⊢
    simp only [Bool.and_eq_true, decide_eq_true_eq] at h
    have ht : (Char.ofNat (c.toNat + 32)).toNat = c.toNat + 32 :=
      toNat_ofNat_small _ (by omega)
    simp only [ht, Bool.and_eq_false_iff, decide_eq_false_iff_not]
    omega
  · next h =>
    simpa using h

theorem mem_insertSet {l : List String} {x y : String} :
    x ∈ insertSet l y ↔ x ∈ l ∨ x = y := by
  unfold insertSet
  split
  · next h =>
    constructor
    · exact Or.inl
    · rintro (hx | rfl)
      · exact hx
      · exact h
  · simp

theorem dropPre_mem {w s r : List Char} (h : dropPre w s = some r)
    {c : Char} (hc : c ∈ r) : c ∈ s := by
  induction w generalizing s with
  | nil =>
    unfold dropPre at h
    cases h
    exact hc
  | cons a ws ih =>
    match s with
    | [] => simp [dropPre] at h
    | b :: bs =>
      unfold dropPre at h
      split at h
      · exact List.mem_cons_of_mem _ (ih h)
      · cases h

theorem removeWordF_mem {w : List Char} {fuel : Nat} {p : Bool}
    {s : List Char} {c : Char} (h : c ∈ removeWordF w fuel p s) : c ∈ s := by
  induction fuel generalizing p s with
  | zero => simp only [removeWordF] at h; exact h
  | succ n ih =>
    match s with
    | [] => simp only [removeWordF] at h; exact h
    | d :: ds =>
      unfold removeWordF at h
      split at h
      · rcases List.mem_cons.mp h with rfl | hm
        · exact List.mem_cons_self _ _
        · exact List.mem_cons_of_mem _ (ih hm)
      · split at h
        · next heq =>
          split at h
          · exact dropPre_mem heq (ih h)
          · rcases List.mem_cons.mp h with rfl | hm
            · exact List.mem_cons_self _ _
            · exact List.mem_cons_of_mem _ (ih hm)
        · rcases List.mem_cons.mp h with rfl | hm
          · exact List.mem_cons_self _ _
          · exact List.mem_cons_of_mem _ (ih hm)

theorem greedyExc_mem {s r : List Char} (h : greedyExc s = some r)
    {c : Char} (hc : c ∈ r) : c ∈ s := by
  induction s with
  | nil => simp [greedyExc] at h
  | cons d ds ih =>
    unfold greedyExc at h
    split at h
    · exact dropPre_mem h hc
    · revert h
      split
      · next heq =>
        intro h
        cases h
        exact List.mem_cons_of_mem _ (ih heq)
      · intro h
        exact dropPre_mem h hc

theorem wxScanF_mem {fuel : Nat} {s : List Char} {c : Char}
    (h : c ∈ wxScanF fuel s) : c ∈ s := by
  induction fuel generalizing s with
  | zero => simp only [wxScanF] at h; exact h
  | succ n ih =>
    match s with
    | [] => simp only [wxScanF] at h; exact h
    | d :: ds =>
      unfold wxScanF at h
      split at h
      · next heq =>
        split at h
        · next heq2 => exact dropPre_mem heq (greedyExc_mem heq2 (ih h))
        · rcases List.mem_cons.mp h with rfl | hm
          · exact List.mem_cons_self _ _
          · exact List.mem_cons_of_mem _ (ih hm)
      · rcases List.mem_cons.mp h with rfl | hm
        · exact List.mem_cons_self _ _
        · exact List.mem_cons_of_mem _ (ih hm)

theorem collapseA_mem {b : Bool} {s : List Char} {c : Char}
    (h : c ∈ collapseA b s) : c = ' ' ∨ c ∈ s := by
  induction s generalizing b with
  | nil => simp [collapseA] at h
  | cons d ds ih =>
    unfold collapseA at h
    split at h
    · split at h
      · rcases ih h with h1 | h1
        · exact Or.inl h1
        · exact Or.inr (List.mem_cons_of_mem _ h1)
      · rcases List.mem_cons.mp h with rfl | hm
        · exact Or.inl rfl
        · rcases ih hm with h1 | h1
          · exact Or.inl h1
          · exact Or.inr (List.mem_cons_of_mem _ h1)
    · rcases List.mem_cons.mp h with rfl | hm
      · exact Or.inr (List.mem_cons_self _ _)
      · rcases ih hm with h1 | h1
        · exact Or.inl h1
        · exact Or.inr (List.mem_cons_of_mem _ h1)

theorem mem_dropWhile {p : Char → Bool} {l : List Char} {c : Char}
    (h : c ∈ l.dropWhile p) : c ∈ l := by
  induction l with
  | nil => simp only [List.dropWhile_nil] at h; exact h
  | cons d ds ih =>
    rw [List.dropWhile_cons] at h
    split at h
    · exact List.mem_cons_of_mem _ (ih h)
    · exact h

theorem stripChars_mem {s : List Char} {c : Char}
    (h : c ∈ stripChars s) : c ∈ s := by
  unfold stripChars at h
  rw [List.mem_reverse] at h
  have h2 := mem_dropWhile h
  rw [List.mem_reverse] at h2
  exact mem_dropWhile h2

theorem headSpace_dropWhile (l : List Char) :
    headSpace (l.dropWhile spaceChar) = false := by
  induction l with
  | nil => rfl
  | cons c cs ih =>
    rw [List.dropWhile_cons]
    split
    · exact ih
    · next h => simpa [headSpace] using h

theorem headSpace_append_left {a b : List Char} (ha : a ≠ []) :
    headSpace (a ++ b) = headSpace a := by
  cases a with
  | nil => exact absurd rfl ha
  | cons c cs => rfl

theorem lastSpace_dropWhile (l : List Char) (h : lastSpace l = false) :
    lastSpace (l.dropWhile spaceChar) = false := by
  rcases List.dropWhile_suffix (l := l) spaceChar with ⟨t, ht⟩
  by_cases hn : l.dropWhile spaceChar = []
  · rw [hn]; rfl
  · unfold lastSpace at h ⊢
    rw [← ht, List.reverse_append] at h
    rwa [headSpace_append_left (by simpa using hn)] at h

theorem headSpace_reverse (l : List Char) :
    headSpace l.reverse = lastSpace l := rfl

theorem lastSpace_reverse (l : List Char) :
    lastSpace l.reverse = headSpace l := by
  unfold lastSpace
  rw [List.reverse_reverse]

theorem headSpace_stripChars (l : List Char) :
    headSpace (stripChars l) = false := by
  unfold stripChars
  rw [headSpace_reverse]
  apply lastSpace_dropWhile
  rw [lastSpace_reverse]
  exact headSpace_dropWhile l

theorem lastSpace_stripChars (l : List Char) :
    lastSpace (stripChars l) = false := by
  unfold stripChars
  rw [lastSpace_reverse]
  exact headSpace_dropWhile _

theorem dropWhile_eq_self_of_headSpace {l : List Char}
    (h : headSpace l = false) : l.dropWhile spaceChar = l := by
  match l, h with
  | [], _ => rfl
  | c :: cs, h =>
    have h2 : spaceChar c = false := h
    rw [List.dropWhile_cons, h2]
    simp

theorem stripChars_idem (l : List Char) :
    stripChars (stripChars l) = stripChars l := by
  have h1 : (stripChars l).dropWhile spaceChar = stripChars l :=
    dropWhile_eq_self_of_headSpace (headSpace_stripChars l)
  have h2 : (stripChars l).reverse.dropWhile spaceChar = (stripChars l).reverse :=
    dropWhile_eq_self_of_headSpace
      (by rw [headSpace_reverse]; exact lastSpace_stripChars l)
  calc stripChars (stripChars l)
      = (((stripChars l).dropWhile spaceChar).reverse.dropWhile spaceChar).reverse := rfl
    _ = stripChars l := by rw [h1, h2, List.reverse_reverse]

theorem stripChars_preNormalize (s : String) :
    stripChars (preNormalize s) = preNormalize s := by
  unfold preNormalize
  exact stripChars_idem _

theorem charOK_of_range {d : Char} (h97 : 97 ≤ d.toNat) (h122 : d.toNat ≤ 122) :
    charOK d = true := by
  have hne : ∀ x : Char, x.toNat < 97 → d ≠ x := by
    intro x hx he
    rw [he] at h97
    omega
  unfold charOK isUpperAZ
  rw [decide_eq_false (hne ',' (by decide)), decide_eq_false (hne '/' (by decide)),
    decide_eq_false (hne '-' (by decide)), decide_eq_false (hne '_' (by decide)),
    decide_eq_false (show ¬(d.toNat ≤ 90) by omega)]
  simp

theorem lowerChar_eq_self {c : Char} (h : isUpperAZ c = false) :
    lowerChar c = c := by
  unfold lowerChar
  simp [h]

theorem charOK_lowerChar (c : Char)
    (hc : charOK c = true ∨ isUpperAZ c = true) :
    charOK (lowerChar c) = true := by
  by_cases hu : isUpperAZ c = true
  · have hb : 65 ≤ c.toNat ∧ c.toNat ≤ 90 := by
      unfold isUpperAZ at hu
      simpa using hu
    have hl : lowerChar c = Char.ofNat (c.toNat + 32) := by
      unfold lowerChar
      rw [hu]
      simp
    rw [hl]
    have ht : (Char.ofNat (c.toNat + 32)).toNat = c.toNat + 32 :=
      toNat_ofNat_small _ (by omega)
    exact charOK_of_range (by omega) (by omega)
  · have hu2 : isUpperAZ c = false := by simpa using hu
    rw [lowerChar_eq_self hu2]
    rcases hc with h | h
    · exact h
    · exact absurd h hu

theorem charOK_notPunct {e : Char} (hup : isUpperAZ e = false)
    (h1 : e ≠ ',') (h2 : e ≠ '/') (h3 : e ≠ '-') (h4 : e ≠ '_') :
    charOK e = true := by
  unfold charOK
  rw [hup]
  simp [h1, h2, h3, h4]

theorem charOK_mapSteps {e : Char} (hup : isUpperAZ e = false) :
    charOK (if (if e = ',' || e = '/' then ' ' else e) = '-' ||
        (if e = ',' || e = '/' then ' ' else e) = '_' then ' '
      else if e = ',' || e = '/' then ' ' else e) = true := by
  by_cases hA : e = ',' ∨ e = '/'
  · have h1 : (if e = ',' || e = '/' then ' ' else e) = ' ' := by
      rcases hA with rfl | rfl <;> rfl
    rw [h1]
    rfl
  · push_neg at hA
    have h1 : (if e = ',' || e = '/' then ' ' else e) = e := by
      simp [hA.1, hA.2]
    rw [h1]
    by_cases hB : e = '-' ∨ e = '_'
    · have h2 : (if e = '-' || e = '_' then ' ' else e) = ' ' := by
        rcases hB with rfl | rfl <;> rfl
      rw [h2]
      rfl
    · push_neg at hB
      have h2 : (if e = '-' || e = '_' then ' ' else e) = e := by
        simp [hB.1, hB.2]
      rw [h2]
      exact charOK_notPunct hup hA.1 hA.2 hB.1 hB.2

theorem isUpperAZ_removeWords {s : String} {e : Char}
    (he : e ∈ removeWord "with" (removeWord "v" (removeWord "version"
      (removeWord "license" (s.data.map lowerChar))))) :
    isUpperAZ e = false := by
  unfold removeWord at he
  have h4 := removeWordF_mem (removeWordF_mem (removeWordF_mem
    (removeWordF_mem he)))
  rcases List.mem_map.mp h4 with ⟨f, _, rfl⟩
  exact isUpperAZ_lowerChar f

theorem charOK_preNormalize (s : String) {c : Char}
    (h : c ∈ preNormalize s) : charOK c = true := by
  unfold preNormalize at h
  have h1 := stripChars_mem h
  have h2 := wxScanF_mem h1
  rcases collapseA_mem h2 with rfl | h3
  · rfl
  · rcases List.mem_map.mp h3 with ⟨d, hd, rfl⟩
    rcases List.mem_map.mp hd with ⟨e, he, rfl⟩
    exact charOK_mapSteps (isUpperAZ_removeWords he)


theorem lookupKL_mem {kl : List (String × String)} {k v : String}
    (h : lookupKL kl k = some v) : v ∈ kl.map (fun kv => kv.2) := by
  induction kl with
  | nil => cases h
  | cons p rest ih =>
    obtain ⟨pk, pv⟩ := p
    unfold lookupKL at h
    split at h
    · cases h
      exact List.mem_cons_self _ _
    · exact List.mem_cons_of_mem _ (ih h)

theorem foldBest_mem {step : Option String → String → Option String}
    (hstep : ∀ b x, step b x = some x ∨ step b x = b)
    {l : List String} {acc : Option String} {m : String}
    (h : l.foldl step acc = some m) : acc = some m ∨ m ∈ l := by
  induction l generalizing acc with
  | nil => exact Or.inl h
  | cons x xs ih =>
    rw [List.foldl_cons] at h
    rcases ih h with h2 | h2
    · rcases hstep acc x with h3 | h3
      · rw [h3] at h2
        cases h2
        exact Or.inr (List.mem_cons_self _ _)
      · rw [h3] at h2
        exact Or.inl h2
    · exact Or.inr (List.mem_cons_of_mem _ h2)

theorem closeMatch_mem {w m : String} (h : closeMatch w = some m) :
    m ∈ knownValues := by
  unfold closeMatch at h
  have hs := foldBest_mem ?_ h
  · rcases hs with h2 | h2
    · cases h2
    · exact (List.mem_filter.mp h2).1
  · intro b x
    match b with
    | none => exact Or.inl rfl
    | some y =>
      simp only
      split
      · exact Or.inl rfl
      · exact Or.inr rfl

theorem fuzzyStep_cases (n1 : String) :
    fuzzyStep n1 ∈ knownValues ∨ fuzzyStep n1 = n1 := by
  unfold fuzzyStep
  split
  · next h => exact Or.inl h
  · split
    · next heq => exact Or.inl (closeMatch_mem heq)
    · exact Or.inr rfl

theorem mkStrip_preNormalize (s : String) :
    (⟨stripChars (preNormalize s)⟩ : String) = ⟨preNormalize s⟩ :=
  congrArg _ (stripChars_preNormalize s)

theorem normalize_cases (s : String) :
    normalize_license_name s ∈ knownValues ∨
      normalize_license_name s = ⟨preNormalize s⟩ := by
  unfold normalize_license_name
  cases hl : lookupKL known_licenses ⟨stripChars (preNormalize s)⟩ with
  | some v =>
    simp only [Option.getD_some]
    rcases fuzzyStep_cases v with h | h
    · exact Or.inl h
    · rw [h]
      exact Or.inl (lookupKL_mem hl)
  | none =>
    simp only [Option.getD_none]
    rw [mkStrip_preNormalize]
    exact fuzzyStep_cases _

theorem relaxedShape_preNormalize (s : String) :
    relaxedShape (⟨preNormalize s⟩ : String) = true := by
  unfold relaxedShape
  simp only [Bool.and_eq_true, List.all_eq_true, Bool.not_eq_true']
  exact ⟨⟨fun c hc => charOK_preNormalize s hc, headSpace_stripChars _⟩,
    lastSpace_stripChars _⟩

theorem check_compliance_eq_nil_iff (licenses : List (String × String))
    (allowed : List String) :
    check_compliance licenses allowed = [] ↔
      ∀ pl ∈ licenses, pl.2 ∈ allowed.map normalize_license_name := by
  unfold check_compliance
  rw [List.filter_eq_nil_iff]
  constructor
  · intro h pl hpl
    simpa using h pl hpl
  · intro h pl hpl
    simpa using h pl hpl

theorem mem_reqFold (lines : List String) (acc : List String) (n : String) :
    n ∈ lines.foldl reqStep acc ↔
      n ∈ acc ∨ ∃ l ∈ lines, n = reqLineName l ∧ reqLineName l ≠ "" ∧
        startsHash (reqLineName l).data = false := by
  induction lines generalizing acc with
  | nil => simp
  | cons line rest ih =>
    rw [List.foldl_cons, ih]
    unfold reqStep
    constructor
    · rintro (hm | ⟨l, hl, hprop⟩)
      · split at hm
        · next hg =>
          rcases mem_insertSet.mp hm with hm2 | rfl
          · exact Or.inl hm2
          · exact Or.inr ⟨line, List.mem_cons_self _ _, rfl, hg⟩
        · exact Or.inl hm
      · exact Or.inr ⟨l, List.mem_cons_of_mem _ hl, hprop⟩
    · rintro (hm | ⟨l, hl, hprop⟩)
      · left
        split
        · exact mem_insertSet.mpr (Or.inl hm)
        · exact hm
      · rcases List.mem_cons.mp hl with rfl | hl2
        · left
          rcases hprop with ⟨rfl, hg⟩
          split
          · exact mem_insertSet.mpr (Or.inr rfl)
          · next hg2 => exact absurd hg hg2
        · exact Or.inr ⟨l, hl2, hprop⟩

theorem scanDirAux_error {isB : String → Bool}
    {files : List (Option (List String))} (h : none ∈ files)
    (acc : List String) : scanDirAux isB files acc = Except.error () := by
  induction files generalizing acc with
  | nil => cases h
  | cons f fs ih =>
    match f with
    | none => rfl
    | some mods =>
      have h2 : none ∈ fs := by
        rcases List.mem_cons.mp h with h1 | h1
        · cases h1
        · exact h1
      exact ih h2 _

/-! Claim theorems. -/

/-- Claim C1 counterexample: for the input "Proprietary" no catalog value
reaches the similarity cutoff (closeMatch on the normalized form returns
none), yet normalize_license_name returns the lowercased intermediate form
"proprietary" rather than the original input string unchanged. -/
theorem c1_counterexample :
    closeMatch ⟨preNormalize "Proprietary"⟩ = none ∧
      normalize_license_name "Proprietary" = "proprietary" ∧
      normalize_license_name "Proprietary" ≠ "Proprietary" := by decide

/-- Claim C1 (amended): when the normalized form of the input is not a
catalog key and no catalog value reaches the similarity cutoff,
normalize_license_name returns the normalized intermediate form of the input
(steps 1 to 4), which equals the original input only when the input is
already fully normalized. -/
theorem c1_below_threshold_result (s : String)
    (h1 : lookupKL known_licenses ⟨preNormalize s⟩ = none)
    (h2 : closeMatch ⟨preNormalize s⟩ = none) :
    normalize_license_name s = ⟨preNormalize s⟩ := by
  unfold normalize_license_name
  rw [mkStrip_preNormalize, h1]
  simp only [Option.getD_none]
  unfold fuzzyStep
  split
  · rfl
  · rw [h2]

/-- Claim C1 witness: the amended theorem applied at the concrete input
"Proprietary". -/
theorem c1_witness :
    normalize_license_name "Proprietary" = ⟨preNormalize "Proprietary"⟩ :=
  c1_below_threshold_result "Proprietary" (by decide) (by decide)

/-- Claim C2 counterexample: "CC0-1.0" is a value of the catalog, but
normalize_license_name maps it to "cc0 1.0" (the hyphens become spaces, the
dot keeps "cc0 1.0" from being a key, and its best similarity ratio 8/14
is below the cutoff), so normalize is not idempotent on it. -/
theorem c2_counterexample :
    "CC0-1.0" ∈ knownValues ∧
      normalize_license_name "CC0-1.0" = "cc0 1.0" ∧
      normalize_license_name "CC0-1.0" ≠ "CC0-1.0" := by decide

/-- Claim C2 (amended): normalize_license_name is idempotent exactly on the
catalog values that survive normalization as keys or are recovered by the
fuzzy step, namely MIT, Apache-2.0, BSD-3-Clause, BSD-2-Clause, Unlicense,
Zlib, Artistic-2.0 and WTFPL; it is not idempotent on the other nine values. -/
theorem c2_idempotent_on_recoverable_ids :
    ∀ v ∈ idemValues, normalize_license_name v = v := by decide

/-- Claim C2 witness: the amended theorem applied at the catalog value "MIT". -/
theorem c2_witness :
    "MIT" ∈ idemValues ∧ normalize_license_name "MIT" = "MIT" :=
  ⟨by decide, c2_idempotent_on_recoverable_ids "MIT" (by decide)⟩

/-- Claim C3 (code bug): on "GPL-2.0 with Classpath exception" the word
"with" is removed by step 2 before the step 4 pattern is tried, so the
pattern cannot match and the exception words survive into the string used
for catalog lookup, contradicting the step 4 comment in the source; the
returned string still contains "exception". -/
theorem c3_exception_clause_survives :
    normalize_license_name "GPL-2.0 with Classpath exception" =
        "gpl 2.0 classpath exception" ∧
      hasSubstr excStr (normalize_license_name
        "GPL-2.0 with Classpath exception").data = true := by decide

/-- Claim C4 counterexample: with resolved licenses {pkgA: mit} and
allow-list [MIT], every lower-cased resolved id is in the lower-cased
allow-list, yet check_compliance reports a violation, because the code
compares the raw resolved id against the normalized (not lower-cased)
allow-list entries. -/
theorem c4_counterexample :
    (∀ pl ∈ [("pkgA", "mit")], lowerStr pl.2 ∈ ["MIT"].map lowerStr) ∧
      check_compliance [("pkgA", "mit")] ["MIT"] ≠ [] := by decide

/-- Claim C4 (amended): check_compliance returns the empty violation list if
and only if every resolved id is, by exact case-sensitive string equality, a
member of the image of the allow-list under normalize_license_name. -/
theorem c4_compliance_iff (licenses : List (String × String))
    (allowed : List String) :
    check_compliance licenses allowed = [] ↔
      ∀ pl ∈ licenses, pl.2 ∈ allowed.map normalize_license_name :=
  check_compliance_eq_nil_iff licenses allowed

/-- Claim C5 counterexample: a tree with one well-formed file importing
numpy and one malformed file makes the scan abort with the propagated parse
error, while the same tree without the malformed file yields the numpy
import. -/
theorem c5_counterexample :
    scan_directory_for_imports (fun _ => false) [some ["numpy"], none] =
        Except.error () ∧
      scan_directory_for_imports (fun _ => false) [some ["numpy"]] =
        Except.ok ["numpy"] := ⟨rfl, rfl⟩

/-- Claim C5 (amended): a per-file parse failure is fatal: whenever any file
of the walked tree is malformed, the whole scan raises instead of returning
the imports of the remaining files. -/
theorem c5_parse_failure_fatal (isB : String → Bool)
    (files : List (Option (List String))) (h : none ∈ files) :
    scan_directory_for_imports isB files = Except.error () :=
  scanDirAux_error h []

/-- Claim C5 witness: the amended theorem applied to a tree consisting of
one malformed file. -/
theorem c5_witness :
    scan_directory_for_imports (fun _ => true) [none] = Except.error () :=
  c5_parse_failure_fatal (fun _ => true) [none] (by simp)

/-- Claim C6 (code bug): in an environment where find_spec locates nothing,
the v1 scan keeps the unlocatable module "mystery" in the returned set
(is_builtin_module returns False on a None spec, despite the comment above
that line saying to skip such modules), while the v2 revision excludes it as
the claim states. -/
theorem c6_unlocatable_module_kept_v1 :
    "mystery" ∈ extract_imports_from_file
        (fun m => is_builtin_module (envNone m)) ["mystery"] ∧
      "mystery" ∉ extract_imports_from_file
        (fun m => is_builtin_module_v2 (envNone m)) ["mystery"] := by decide

/-- Claim C7 counterexample: the third reference equation fails: "v3.0" has
no word boundary after the "v", so the "v" is not removed, the dot survives,
the result misses the key "gnu general public 3 0", and no catalog value
reaches the similarity cutoff over the 23-character string. -/
theorem c7_counterexample :
    normalize_license_name "GNU General Public License v3.0" ≠ "GPL-3.0" := by
  decide

/-- Claim C7 (amended): the first two reference equations hold, and the
third input normalizes to the unresolved string "gnu general public v3.0". -/
theorem c7_reference_inputs :
    normalize_license_name "MIT License" = "MIT" ∧
      normalize_license_name "Apache License 2.0" = "Apache-2.0" ∧
      normalize_license_name "GNU General Public License v3.0" =
        "gnu general public v3.0" := by decide

/-- Claim C8 (code bug): a manifest whose dev-dependencies section lists
"python" keeps it in the v1 result (only the dependencies section filters
it), while the v2 revision excludes it from both sections as the claim
states. -/
theorem c8_python_kept_in_dev_dependencies :
    "python" ∈ parse_pyproject_toml (some []) (some ["python"]) ∧
      "python" ∉ parse_pyproject_toml_v2 (some []) (some ["python"]) := by
  decide

/-- Claim C9 counterexample: for the line "requests ==1.0" the claimed
extraction (trim what precedes the first "==") gives "requests", but the
code strips the whole line before splitting, so it stores "requests " with
its trailing space, and "requests" itself is not in the result. -/
theorem c9_counterexample :
    specReqName "requests ==1.0" = "requests" ∧
      reqLineName "requests ==1.0" = "requests " ∧
      "requests" ∉ read_requirements_file ["requests ==1.0"] ∧
      "requests " ∈ read_requirements_file ["requests ==1.0"] := by decide

/-- Claim C9 (amended): the names returned by read_requirements_file are
exactly the nonempty, non-comment values of reqLineName over the lines,
where reqLineName strips the whole line first and then takes everything
before the first "==", so whitespace adjacent to the delimiter survives. -/
theorem c9_extracted_names (lines : List String) (n : String) :
    n ∈ read_requirements_file lines ↔
      (∃ l ∈ lines, n = reqLineName l) ∧ n ≠ "" ∧
        startsHash n.data = false := by
  unfold read_requirements_file
  rw [mem_reqFold]
  simp only [List.not_mem_nil, false_or]
  constructor
  · rintro ⟨l, hl, rfl, hne, hh⟩
    exact ⟨⟨l, hl, rfl⟩, hne, hh⟩
  · rintro ⟨⟨l, hl, rfl⟩, hne, hh⟩
    exact ⟨l, hl, rfl, hne, hh⟩

/-- Claim C10 counterexample: the input "z withqexception z" normalizes to
"z  z": excising the step 4 match joins the two spaces around it after
whitespace was already collapsed, so the result is neither a catalog value
nor of the claimed shape (it has consecutive whitespace). -/
theorem c10_counterexample :
    normalize_license_name "z withqexception z" = "z  z" ∧
      "z  z" ∉ knownValues ∧ claimNormalShape "z  z" = false := by decide

/-- Claim C10 (amended): every result of normalize_license_name is either a
catalog value or a string with no ASCII uppercase letter, no comma, slash,
hyphen or underscore, and no leading or trailing whitespace; consecutive
inner whitespace is possible.  In particular an input is returned verbatim
only when it already has one of these shapes. -/
theorem c10_result_shape (s : String) :
    normalize_license_name s ∈ knownValues ∨
      relaxedShape (normalize_license_name s) = true := by
  rcases normalize_cases s with h | h
  · exact Or.inl h
  · rw [h]
    exact Or.inr (relaxedShape_preNormalize s)

end LicenseCheck
